import Mathlib

/-!
Shallow embedding of the core of the CSV → staging → transformed → production
ETL pipeline (src/src/extract.py, src/src/transform.py, src/src/load.py,
src/main.py), together with proofs about the claims of its specification.

Conventions: Python strings are Lean `String`s, SQL NULL is `none`, machine
dates are a plain `(year, month, day)` record, and each embedded function keeps
the name of the Python method it is translated from.
-/

namespace ETL

/-- Calendar date, as Python `datetime.date`. -/
structure Date where
  year : Nat
  month : Nat
  day : Nat
deriving DecidableEq, Repr

namespace Date

/-- Gregorian leap-year test, as Python's calendar arithmetic. -/
def isLeap (y : Nat) : Bool := (y % 4 == 0 && y % 100 != 0) || (y % 400 == 0)

/-- Number of days of month `m` in year `y`. -/
def daysInMonth (y m : Nat) : Nat :=
  if m = 2 then (if isLeap y then 29 else 28)
  else if m = 4 ∨ m = 6 ∨ m = 9 ∨ m = 11 then 30
  else 31

/-- Model of the `datetime.date(y, m, d)` constructor: `none` plays the role of
the `ValueError` raised on an invalid triple. -/
def ofYMD (y m d : Nat) : Option Date :=
  if 1 ≤ y ∧ 1 ≤ m ∧ m ≤ 12 ∧ 1 ≤ d ∧ d ≤ daysInMonth y m then some ⟨y, m, d⟩ else none

/-- Lexicographic comparison on (year, month, day), the order of Python dates. -/
def lt (a b : Date) : Bool :=
  a.year < b.year ||
    (a.year == b.year && (a.month < b.month || (a.month == b.month && a.day < b.day)))

end Date

/-- Separator class (dash, slash or dot) of the date regexes in transform.py. -/
def isDateSep (c : Char) : Bool := c == '-' || c == '/' || c == '.'

/-- Separator class (dash or slash only) of the two-digit-year regex in load.py. -/
def isSepNoDot (c : Char) : Bool := c == '-' || c == '/'

/-- Whitespace test of Python `str.strip`. -/
def isPySpace (c : Char) : Bool :=
  c == ' ' || c == '\t' || c == '\n' || c == '\r'

/-- Python `str.strip()`, written structurally so that concrete inputs reduce
inside the kernel. -/
def pyStrip (s : String) : String :=
  String.mk (((s.data.dropWhile isPySpace).reverse.dropWhile isPySpace).reverse)

/-- Python `str.lower()` on ASCII data. -/
def pyLower (s : String) : String :=
  String.mk (s.data.map Char.toLower)

/-- Base-10 value of a run of digit characters. -/
def digitsVal (l : List Char) : Nat := l.foldl (fun n c => 10 * n + (c.toNat - 48)) 0

/-- Splits a character list into exactly three nonempty digit runs joined by
single separator characters, mirroring the anchored regexes
`^\d+X\d+X\d+$` (with `X` a separator class) used by both safe_date variants. -/
def splitThree (sepOk : Char → Bool) (cs : List Char) : Option (List Char × List Char × List Char) :=
  let p1 := cs.span Char.isDigit
  match p1.2 with
  | [] => none
  | s1 :: r2 =>
    if sepOk s1 then
      let p2 := r2.span Char.isDigit
      match p2.2 with
      | [] => none
      | s2 :: r4 =>
        if sepOk s2 then
          let p3 := r4.span Char.isDigit
          if !p1.1.isEmpty && !p2.1.isEmpty && !p3.1.isEmpty && p3.2.isEmpty then
            some (p1.1, p2.1, p3.1)
          else none
        else none
    else none

/-- Shallow model of `pandas.to_datetime(..., errors='coerce')` on purely
numeric three-part date strings, the only shapes the specification discusses.
`dayfirst` picks which of the two small fields is read as the day; as in
dateutil, the two fields are swapped when the preferred reading is invalid. -/
def pdParse (dayfirst : Bool) (cs : List Char) : Option Date :=
  match splitThree isDateSep cs with
  | none => none
  | some (a, b, c) =>
    if a.length == 4 && decide (b.length ≤ 2) && decide (c.length ≤ 2) then
      Date.ofYMD (digitsVal a) (digitsVal b) (digitsVal c)
    else if decide (a.length ≤ 2) && decide (b.length ≤ 2) && c.length == 4 then
      let x := digitsVal a
      let y := digitsVal b
      let yr := digitsVal c
      if dayfirst then (Date.ofYMD yr y x).orElse (fun _ => Date.ofYMD yr x y)
      else (Date.ofYMD yr x y).orElse (fun _ => Date.ofYMD yr y x)
    else none

/-- The null-like tokens rejected at the top of transform.py's safe_date. -/
def nullTokens : List String := ["", "None", "NaN", "nan", "NULL", "null", "N/A", "n/a"]

/-- The two four-digit-year regex shapes of safe_date: day-month-YYYY or YYYY-month-day,
with one separator character between fields. -/
def fourDigitShape (cs : List Char) : Bool :=
  match splitThree isDateSep cs with
  | some (a, b, c) =>
    (decide (a.length ≤ 2) && decide (b.length ≤ 2) && c.length == 4) ||
      (a.length == 4 && decide (b.length ≤ 2) && decide (c.length ≤ 2))
  | none => false

/-- `^(\d{1,2})X(\d{1,2})X(\d{2})$` over separator class `X`, returning the
three numeric groups. -/
def twoDigitShape (sepOk : Char → Bool) (cs : List Char) : Option (Nat × Nat × Nat) :=
  match splitThree sepOk cs with
  | some (a, b, c) =>
    if decide (a.length ≤ 2) && decide (b.length ≤ 2) && c.length == 2 then
      some (digitsVal a, digitsVal b, digitsVal c)
    else none
  | none => none

namespace Transform

/-- The year-range gate of transform.py's safe_date: `1900 <= year <= current year`. -/
def yearGate (cy : Nat) (o : Option Date) : Option Date :=
  o.bind fun d => if 1900 ≤ d.year ∧ d.year ≤ cy then some d else none

/-- `DataTransformer.safe_date` of src/src/transform.py, with the current year
`cy` (read from `date.today()` in the code) passed explicitly. `none` models the
null marker returned for unparsable, null-like, or out-of-range input.
Two-digit years use the sliding window against `cy % 100`. -/
def safe_date (cy : Nat) (s : String) : Option Date :=
  let t := pyStrip s
  if t ∈ nullTokens then none
  else
    let cs := t.data
    let four := if fourDigitShape cs then yearGate cy (pdParse false cs) else none
    let two :=
      match twoDigitShape isDateSep cs with
      | some (a, b, yy) =>
        let dm := if 12 < a ∧ b ≤ 12 then (a, b) else if 12 < b ∧ a ≤ 12 then (b, a) else (a, b)
        let y4 := if yy ≤ cy % 100 then 2000 + yy else 1900 + yy
        match Date.ofYMD y4 dm.2 dm.1 with
        | some dt => yearGate cy (some dt)
        | none => yearGate cy (Date.ofYMD y4 dm.2 1)
      | none => none
    four.orElse fun _ => two.orElse fun _ => yearGate cy (pdParse true cs)

end Transform

namespace Load

/-- The null-likeness test shared by load.py's safe_val / safe_date / safe_num. -/
def isNullLike (s : String) : Bool :=
  pyStrip s ∈ nullTokens || pyLower (pyStrip s) ∈ ["nan", "none", "", "n/a", "null"]

/-- The year-range gate of load.py's safe_date:
`current_year - 120 <= year <= current_year + 50`. -/
def yearGate (cy : Nat) (o : Option Date) : Option Date :=
  o.bind fun d => if cy - 120 ≤ d.year ∧ d.year ≤ cy + 50 then some d else none

/-- `DataTransformer.safe_date` of src/src/load.py. Two-digit years use the
fixed 49/50 cutoff, not the sliding window. -/
def safe_date (cy : Nat) (s : String) : Option Date :=
  if isNullLike s then none
  else
    let cs := (pyStrip s).data
    let p1 := yearGate cy (pdParse true cs)
    let p2 :=
      match twoDigitShape isSepNoDot cs with
      | some (d, m, yy) =>
        let y4 := if yy ≤ 49 then 2000 + yy else 1900 + yy
        if 1 ≤ m ∧ m ≤ 12 ∧ 1 ≤ d ∧ d ≤ 31 then yearGate cy (Date.ofYMD y4 m d) else none
      | none => none
    p1.orElse fun _ => p2

end Load

/-- A raw CSV row: the primary-key cell and the remaining cells, all read as
plain strings (`pandas.read_csv` with `dtype=str, keep_default_na=False`). -/
structure RawRow where
  key : String
  vals : List String
deriving DecidableEq, Repr

/-- A staging-table row: cells after the null normalization of
`_process_dataframe_raw`; `none` is SQL NULL. -/
structure Row where
  key : Option String
  vals : List (Option String)
deriving DecidableEq, Repr

namespace Extract

/-- `MySQLExtractor._extract_numeric_id`: concatenate every digit character of
the id string and read the result as an integer; 0 when there is no digit. -/
def extract_numeric_id (s : String) : Nat :=
  digitsVal (s.data.filter Char.isDigit)

/-- The exact replacement list of `_process_dataframe_raw`: these strings (and
only these, case-sensitively) become SQL NULL in staging. -/
def rawNullStrings : List String := ["nan", "None", "NaT", "<NA>", ""]

def normalizeCell (s : String) : Option String :=
  if s ∈ rawNullStrings then none else some s

def normalizeRow (r : RawRow) : Row :=
  ⟨normalizeCell r.key, r.vals.map normalizeCell⟩

/-- Sort order of `_process_dataframe_raw`: by the numeric value extracted from
the primary key. -/
def rowLe (a b : RawRow) : Prop :=
  extract_numeric_id a.key ≤ extract_numeric_id b.key

instance : DecidableRel rowLe := fun _ _ => Nat.decLe _ _

/-- The numeric-id sort of `_process_dataframe_raw`, modeled as a stable sort. -/
def sortByNumericId (l : List RawRow) : List RawRow :=
  l.insertionSort rowLe

/-- `_process_dataframe_raw`: sort rows by the numeric id of the primary key,
then normalize every cell (no other conversion is applied). -/
def process_dataframe_raw (l : List RawRow) : List Row :=
  (sortByNumericId l).map normalizeRow

/-- The key filter both file paths apply after `_process_dataframe_raw`:
keep rows whose primary key is non-NULL and non-empty. -/
def validKey (r : Row) : Bool :=
  r.key.isSome && decide (r.key ≠ some "")

/-- `drop_duplicates(subset=[primary_key], keep='last')`: keep, in place, the
last occurrence of every key. -/
def dedupKeepLast : List Row → List Row
  | [] => []
  | a :: as =>
    if as.any (fun x => decide (x.key = a.key)) then dedupKeepLast as
    else a :: dedupKeepLast as

/-- One row of `INSERT ... ON DUPLICATE KEY UPDATE col = VALUES(col), ...`:
overwrite the (unique) row holding this key, or append at the end. -/
def upsertRow : List Row → Row → List Row
  | [], r => [r]
  | x :: xs, r => if x.key = r.key then r :: xs else x :: upsertRow xs r

/-- `_upsert_batch_data`: upsert a batch row by row. -/
def upsert_batch_data (t : List Row) (batch : List Row) : List Row :=
  batch.foldl upsertRow t

/-- `_get_existing_primary_keys`: SELECT DISTINCT primary_key FROM staging. -/
def get_existing_primary_keys (t : List Row) : List (Option String) :=
  (t.map Row.key).dedup

/-- Shared per-chunk cleaning: `_process_dataframe_raw`, then drop rows with a
NULL or empty key, then dedup keeping the last occurrence. -/
def procChunk (c : List RawRow) : List Row :=
  dedupKeepLast ((process_dataframe_raw c).filter validKey)

/-- `_process_small_file`: clean the whole file in memory, count new vs updated
keys against the staging table, and upsert everything. Returns the new staging
table and the `(total_rows, new_count, update_count)` triple. -/
def process_small_file (staging : List Row) (rows : List RawRow) :
    List Row × (Nat × Nat × Nat) :=
  if rows.isEmpty then (staging, (0, 0, 0))
  else
    let total := rows.length
    let p := procChunk rows
    if p.isEmpty then (staging, (total, 0, 0))
    else
      let existing := get_existing_primary_keys staging
      let keys := p.map Row.key
      let newKeys := keys.filter (fun k => decide (k ∉ existing))
      let updKeys := keys.filter (fun k => decide (k ∈ existing))
      (upsert_batch_data staging p, (total, newKeys.length, updKeys.length))

/-- Fuel-indexed chunk splitter (fuel bounds the recursion structurally). -/
def chunksOfAux {α : Type} : Nat → Nat → List α → List (List α)
  | 0, _, _ => []
  | _ + 1, _, [] => []
  | fuel + 1, n, l => l.take n :: chunksOfAux fuel n (l.drop n)

/-- `pd.read_csv(..., chunksize=n)`: split the file into successive chunks of
`n` rows. -/
def chunksOf {α : Type} (n : Nat) (l : List α) : List (List α) :=
  chunksOfAux l.length n l

/-- Loop state of `_process_large_file_in_chunks`. -/
structure ChunkAcc where
  staging : List Row
  existing : List (Option String)
  total : Nat
  nw : Nat
  upd : Nat

/-- One iteration of the chunk loop: clean the chunk, skip it when empty,
otherwise count new vs updated keys against the running key set, upsert the
chunk, and add the new keys to the running set. -/
def chunkStep (acc : ChunkAcc) (c : List RawRow) : ChunkAcc :=
  let p := procChunk c
  if p.isEmpty then acc
  else
    let keys := p.map Row.key
    let newKeys := keys.filter (fun k => decide (k ∉ acc.existing))
    let updKeys := keys.filter (fun k => decide (k ∈ acc.existing))
    { staging := upsert_batch_data acc.staging p
      existing := acc.existing ++ newKeys
      total := acc.total + p.length
      nw := acc.nw + newKeys.length
      upd := acc.upd + updKeys.length }

/-- `_process_large_file_in_chunks`: stream the file in chunks of `chunkSize`
rows, cleaning, counting and upserting chunk by chunk. -/
def process_large_file_in_chunks (chunkSize : Nat) (staging : List Row)
    (rows : List RawRow) : List Row × (Nat × Nat × Nat) :=
  let fin := (chunksOf chunkSize rows).foldl chunkStep
    ⟨staging, get_existing_primary_keys staging, 0, 0, 0⟩
  (fin.staging, (fin.total, fin.nw, fin.upd))

/-- A source CSV file: base name, data rows, content fingerprint (MD5,
abstracted to a number) and size in MB. -/
structure SourceFile where
  name : String
  rows : List RawRow
  hash : Nat
  sizeMB : Nat

/-- One row of `etl_file_tracker`. -/
structure TrackerEntry where
  file_name : String
  file_hash : Nat
  record_count : Nat
deriving DecidableEq, Repr

/-- The extractor-visible database state: the tracking ledger and one staging
table. -/
structure ExtractState where
  tracker : List TrackerEntry
  staging : List Row

/-- `_is_file_processed`: look the base name up in the ledger and compare the
stored fingerprint with the file's current fingerprint. -/
def is_file_processed (st : ExtractState) (f : SourceFile) : Bool :=
  match st.tracker.find? (fun e => decide (e.file_name = f.name)) with
  | some e => decide (e.file_hash = f.hash)
  | none => false

/-- Ledger upsert keyed by file name (`ON DUPLICATE KEY UPDATE`). -/
def upsertTracker : List TrackerEntry → TrackerEntry → List TrackerEntry
  | [], e => [e]
  | x :: xs, e =>
    if x.file_name = e.file_name then e :: xs else x :: upsertTracker xs e

/-- `_mark_file_processed`: record name, fingerprint and row count. -/
def mark_file_processed (st : ExtractState) (f : SourceFile) (count : Nat) :
    ExtractState :=
  { st with tracker := upsertTracker st.tracker ⟨f.name, f.hash, count⟩ }

/-- The `sum(1 for _ in open(path)) - 1` row count: data lines below the header. -/
def csvRowCount (f : SourceFile) : Nat := f.rows.length

def largeFileThresholdMB : Nat := 10

def chunkSize : Nat := 1000

/-- `load_csv_to_staging`: skip an already-processed (fingerprint-matching)
file, reporting its row count with zero new and updated rows; otherwise
dispatch on size to the chunked or in-memory path and mark the file processed
when any row survived. -/
def load_csv_to_staging (st : ExtractState) (f : SourceFile) :
    ExtractState × (Nat × Nat × Nat) :=
  if is_file_processed st f then (st, (csvRowCount f, 0, 0))
  else
    let res :=
      if largeFileThresholdMB < f.sizeMB then
        process_large_file_in_chunks chunkSize st.staging f.rows
      else process_small_file st.staging f.rows
    let st' : ExtractState := { st with staging := res.1 }
    (if 0 < res.2.1 then mark_file_processed st' f res.2.1 else st', res.2)

end Extract

namespace Load

/-- `DataTransformer.safe_val` of src/src/load.py on the key and foreign-key
columns (which are passed no case-transform flag): null-like values become the
string "NA", anything else is stripped. -/
def safe_val (val : Option String) (default : String) : String :=
  match val with
  | none => default
  | some v =>
    if isNullLike v then default
    else if pyStrip v = "" then default else pyStrip v

/-- Characters removed by `safe_num` before parsing. -/
def isMoneyJunk (c : Char) : Bool := c == '₹' || c == '$' || c == ',' || c == ' '

/-- Unsigned decimal literal, the shapes Python `float()` accepts that occur in
amount columns. -/
def parseUnsigned (cs : List Char) : Option Rat :=
  let p := cs.span Char.isDigit
  match p.2 with
  | [] => if p.1.isEmpty then none else some (digitsVal p.1 : Rat)
  | '.' :: fp =>
    if fp.all Char.isDigit && !(p.1.isEmpty && fp.isEmpty) then
      some ((digitsVal p.1 : Rat) + (digitsVal fp : Rat) / ((10 : Rat) ^ fp.length))
    else none
  | _ => none

/-- Model of Python `float(s)` on plain decimal literals. -/
def pyFloat (cs : List Char) : Option Rat :=
  match cs with
  | '-' :: rest => (parseUnsigned rest).map (fun q => -q)
  | '+' :: rest => parseUnsigned rest
  | _ => parseUnsigned cs

/-- `DataTransformer.safe_num` of src/src/load.py: drop currency symbols,
thousands separators and spaces, then parse; on failure return the default. -/
def safe_num (val : Option String) (default : Rat) : Rat :=
  match val with
  | none => default
  | some v =>
    if isNullLike v then default
    else
      let cleaned := (v.data.filter (fun c => !isMoneyJunk c)).dropWhile (· == ' ')
      match pyFloat cleaned with
      | some q => q
      | none => default

/-- A `staging_loans` row as fetched by transform_loans; the columns not
involved in the claims are bundled in `rest`. -/
structure StgLoan where
  loan_id : Option String
  customer_id : Option String
  loan_amount : Option String
  rest : List (Option String)
deriving DecidableEq, Repr

/-- A `transformed_loans` row restricted to the columns the claims mention. -/
structure LoanOut where
  loan_id : Option String
  customer_id : String
  loan_amount : Rat
  rest : List (Option String)
deriving DecidableEq, Repr

/-- `drop_duplicates(subset=[key], keep='first')`, keyed by `key`: keep the
first row holding each key value. -/
def dedupKeepFirstByAux {α : Type} (key : α → Option String)
    (seen : List (Option String)) : List α → List α
  | [] => []
  | a :: as =>
    if key a ∈ seen then dedupKeepFirstByAux key seen as
    else a :: dedupKeepFirstByAux key (key a :: seen) as

/-- Per-row cleaning of the loan columns the referential filter looks at. -/
def cleanLoan (r : StgLoan) : LoanOut :=
  { loan_id := r.loan_id
    customer_id := safe_val r.customer_id "NA"
    loan_amount := safe_num r.loan_amount 0
    rest := r.rest }

/-- `DataTransformer.transform_loans` of src/src/load.py, restricted to its
row-selection logic: dedup keeping the first occurrence of each loan_id, clean
the foreign key and the amount, keep only rows whose cleaned customer_id is
among the customer ids present in `transformed_customers`, then only rows with
positive amount. Returns the rows actually written together with the
`(processed, transformed)` counters of `self.stats`. -/
def transform_loans (valid_custs : List String) (rows : List StgLoan) :
    List LoanOut × (Nat × Nat) :=
  let processed := rows.length
  let dfClean := (dedupKeepFirstByAux (fun r => r.loan_id) [] rows).map cleanLoan
  let kept := (dfClean.filter (fun r => decide (r.customer_id ∈ valid_custs))).filter
    (fun r => decide (0 < r.loan_amount))
  (kept, (processed, kept.length))

/-- A `staging_transactions` row as fetched by transform_transactions; the
columns not involved in the claims are bundled in `rest`. -/
structure StgTxn where
  transaction_id : Option String
  customer_id : Option String
  amount : Option String
  transaction_date : Option String
  rest : List (Option String)
deriving DecidableEq, Repr

/-- A `transformed_transactions` row restricted to the columns the claims
mention. -/
structure TxnOut where
  transaction_id : Option String
  customer_id : String
  amount : Rat
  transaction_date : Option Date
  rest : List (Option String)
deriving DecidableEq, Repr

/-- `safe_date` applied to a possibly-NULL staging cell: the `pd.isna(val)`
branch of the Python function handles SQL NULL. -/
def safe_date_cell (cy : Nat) (v : Option String) : Option Date :=
  match v with
  | none => none
  | some s => safe_date cy s

/-- Per-row cleaning of the transaction columns the referential and
business-validity filters look at. -/
def cleanTxn (cy : Nat) (r : StgTxn) : TxnOut :=
  { transaction_id := r.transaction_id
    customer_id := safe_val r.customer_id "NA"
    amount := safe_num r.amount 0
    transaction_date := safe_date_cell cy r.transaction_date
    rest := r.rest }

/-- `DataTransformer.transform_transactions` of src/src/load.py, restricted to
its row-selection logic: dedup keeping the first occurrence of each
transaction_id, clean the foreign key, the amount and the date, then keep only
rows whose cleaned customer_id is among the customer ids present in
`transformed_customers`, whose amount is positive, and whose transaction date
parsed (`pd.notna`). Returns the rows actually written together with the
`(processed, transformed)` counters of `self.stats`. -/
def transform_transactions (cy : Nat) (valid_custs : List String)
    (rows : List StgTxn) : List TxnOut × (Nat × Nat) :=
  let processed := rows.length
  let dfClean :=
    (dedupKeepFirstByAux (fun r => r.transaction_id) [] rows).map (cleanTxn cy)
  let kept := ((dfClean.filter (fun r => decide (r.customer_id ∈ valid_custs))).filter
      (fun r => decide (0 < r.amount))).filter (fun r => r.transaction_date.isSome)
  (kept, (processed, kept.length))

end Load

namespace Loader

/-- Modelled from the spec: `IncrementalLoader.load_all_entities_incremental`
for one entity. The class is imported in src/main.py from src.load and called
by run_load_phase, but its definition is not present under src/. Spec 4.4: the
loader determines the row count already in the production store, fetches
exactly the rows beyond that high-water mark from the transformed store in
surrogate-key order, limited to the delta count, and appends them; a zero
delta means no write. Returns the production rows and the loaded-row count. -/
def load_entity_incremental {α : Type} (transformed production : List α) :
    List α × Nat :=
  let delta := transformed.length - production.length
  if delta = 0 then (production, 0)
  else (production ++ (transformed.drop production.length).take delta, delta)

/-- Modelled from the spec: `IncrementalLoader.verify_counts` for one entity,
per spec 4.5 — recompute both row counts and report
`synchronized = (countA == countB)`. -/
def verify_counts {α : Type} (transformed production : List α) :
    Nat × Nat × Bool :=
  (transformed.length, production.length,
    transformed.length == production.length)

end Loader

/-- The `(month, day) < (month, day)` tuple comparison inside calc_age. -/
def mdLt (a b : Nat × Nat) : Bool :=
  a.1 < b.1 || (a.1 == b.1 && a.2 < b.2)

/-- The shared age expression of both calc_age variants:
`today.year - dob.year - ((today.month, today.day) < (dob.month, dob.day))`. -/
def ageYears (today d : Date) : Int :=
  (today.year : Int) - d.year -
    (if mdLt (today.month, today.day) (d.month, d.day) then 1 else 0)

/-- `DataTransformer.calc_age` of src/src/transform.py: 0 for a missing or
future birth date, otherwise the age expression clipped into [0, 120] with
`max(0, min(age, 120))`. -/
def Transform.calc_age (today : Date) (dob : Option Date) : Int :=
  match dob with
  | none => 0
  | some d =>
    if Date.lt today d then 0
    else max 0 (min (ageYears today d) 120)

/-- `DataTransformer.calc_age` of src/src/load.py: 0 for a missing or future
birth date, the age expression when it lies in [0, 120], and 0 otherwise. -/
def Load.calc_age (today : Date) (dob : Option Date) : Int :=
  match dob with
  | none => 0
  | some d =>
    if Date.lt today d then 0
    else
      let a := ageYears today d
      if 0 ≤ a ∧ a ≤ 120 then a else 0

/-- The age rule exactly as the specification words it: whole years between the
birth date and today, decremented by one if the birth month/day has not yet
occurred this year, and 0 whenever the birth date is in the future or that
result falls outside [0, 120]. -/
def specAge (today : Date) (dob : Option Date) : Int :=
  match dob with
  | none => 0
  | some d =>
    let a := ageYears today d
    if Date.lt today d ∨ a < 0 ∨ 120 < a then 0 else a

/-- The staging null-token predicate exactly as claim C10 words it: the empty
string, or a string equal case-insensitively to one of none, nan, null, n/a,
<NA>. -/
def claimNullToken (s : String) : Bool :=
  s == "" || pyLower s ∈ ["none", "nan", "null", "n/a", "<na>"]

/-- The staging null normalization as the amended claim words it: a value
exactly equal (case-sensitively) to "nan", "None", "NaT", "<NA>" or the empty
string is stored as SQL NULL; every other value is stored unchanged. -/
def specNormalizeCell (s : String) : Option String :=
  if s = "nan" ∨ s = "None" ∨ s = "NaT" ∨ s = "<NA>" ∨ s = "" then none else some s

/-- Staging-row predicate: the row holds primary key `k`. -/
def keyIs (k : Option String) : Row → Bool := fun x => decide (x.key = k)

/-- Raw-row predicate: after normalization the row holds primary key `k` and
that key is valid (non-NULL, non-empty). -/
def rawKeyPred (k : Option String) : RawRow → Bool :=
  fun a => keyIs k (Extract.normalizeRow a) && Extract.validKey (Extract.normalizeRow a)

/-- Last element of a list satisfying `p`, if any (the row a chain of upserts
leaves in place for a key). -/
def lastMatchP {α : Type} (p : α → Bool) : List α → Option α
  | [] => none
  | a :: as =>
    match lastMatchP p as with
    | some r => some r
    | none => if p a then some a else none

/-- Strict version of the numeric-id sort order, used to show the sort is
unambiguous when the numeric keys are pairwise distinct. -/
def Extract.rowLt (a b : RawRow) : Prop :=
  Extract.extract_numeric_id a.key < Extract.extract_numeric_id b.key

instance : IsTotal RawRow Extract.rowLe := ⟨fun _ _ => Nat.le_total _ _⟩

instance : IsTrans RawRow Extract.rowLe := ⟨fun _ _ _ => Nat.le_trans⟩

instance : IsAntisymm RawRow Extract.rowLt :=
  ⟨fun _ _ h1 h2 => absurd h2 (Nat.lt_asymm h1)⟩

/-! ## Helper lemmas -/

theorem orElse_eq_some_cases {α : Type} {o : Option α} {f : Unit → Option α} {d : α}
    (h : o.orElse f = some d) : o = some d ∨ (o = none ∧ f () = some d) := by
  cases o with
  | none => exact Or.inr ⟨rfl, h⟩
  | some x => exact Or.inl h

theorem Load.yearGate_some_window {cy : Nat} {o : Option Date} {d : Date}
    (h : Load.yearGate cy o = some d) : cy - 120 ≤ d.year ∧ d.year ≤ cy + 50 := by
  cases o with
  | none => exact absurd h (by simp [Load.yearGate])
  | some x =>
    simp only [Load.yearGate, Option.some_bind] at h
    split at h
    · cases h; assumption
    · exact Option.noConfusion h

theorem Transform.yearGate_some_range {cy : Nat} {o : Option Date} {d : Date}
    (h : Transform.yearGate cy o = some d) : 1900 ≤ d.year ∧ d.year ≤ cy := by
  cases o with
  | none => exact absurd h (by simp [Transform.yearGate])
  | some x =>
    simp only [Transform.yearGate, Option.some_bind] at h
    split at h
    · cases h; assumption
    · exact Option.noConfusion h

theorem lastMatchP_eq_none_iff {α : Type} (p : α → Bool) (l : List α) :
    lastMatchP p l = none ↔ ∀ x ∈ l, p x = false := by
  induction l with
  | nil => simp [lastMatchP]
  | cons a as ih =>
    simp only [lastMatchP]
    cases h : lastMatchP p as with
    | some r =>
      constructor
      · exact fun hc => Option.noConfusion hc
      · intro hall
        have h0 := ih.mpr fun x hx => hall x (List.mem_cons_of_mem a hx)
        rw [h0] at h
        exact Option.noConfusion h
    | none =>
      constructor
      · intro hc x hx
        rcases List.mem_cons.mp hx with rfl | hx'
        · by_cases hpa : p x = true
          · rw [if_pos hpa] at hc
            exact Option.noConfusion hc
          · simpa using hpa
        · exact ih.mp h x hx'
      · intro hall
        have ha := hall a (List.mem_cons_self a as)
        simp [ha]

theorem find?_upsertRow (t : List Row) (r : Row) (k : Option String) :
    (Extract.upsertRow t r).find? (keyIs k) =
      if r.key = k then some r else t.find? (keyIs k) := by
  induction t with
  | nil => by_cases hk : r.key = k <;> simp [Extract.upsertRow, List.find?, keyIs, hk]
  | cons x xs ih =>
    by_cases hx : x.key = r.key
    · simp only [Extract.upsertRow, if_pos hx]
      by_cases hk : r.key = k <;> simp [List.find?, keyIs, hk, hx]
    · simp only [Extract.upsertRow, if_neg hx]
      by_cases hxk : x.key = k
      · have hrk : ¬ r.key = k := fun hh => hx (hxk.trans hh.symm)
        simp [List.find?, keyIs, hxk, hrk]
      · simp [List.find?, keyIs, hxk, ih]

theorem countP_upsertRow (t : List Row) (r : Row) :
    (Extract.upsertRow t r).countP (keyIs r.key) =
      if t.countP (keyIs r.key) = 0 then 1 else t.countP (keyIs r.key) := by
  induction t with
  | nil => simp [Extract.upsertRow, keyIs]
  | cons x xs ih =>
    by_cases hx : x.key = r.key
    · simp only [Extract.upsertRow, if_pos hx, List.countP_cons, keyIs]
      simp [hx]
    · simp only [Extract.upsertRow, if_neg hx, List.countP_cons, keyIs]
      simp only [decide_eq_true_eq]
      rw [if_neg hx]
      have ih' := ih
      simp only [keyIs] at ih'
      rw [ih']
      split_ifs <;> omega

theorem dedup_find?_eq_lastMatchP (l : List Row) (k : Option String) :
    (Extract.dedupKeepLast l).find? (keyIs k) = lastMatchP (keyIs k) l := by
  induction l with
  | nil => rfl
  | cons a as ih =>
    by_cases hany : as.any (fun x => decide (x.key = a.key)) = true
    · simp only [Extract.dedupKeepLast, if_pos hany]
      rw [ih]
      simp only [lastMatchP]
      cases hm : lastMatchP (keyIs k) as with
      | some r => rfl
      | none =>
        have hall := (lastMatchP_eq_none_iff _ _).mp hm
        have hka : keyIs k a = false := by
          rcases List.any_eq_true.mp hany with ⟨x0, hx0, hx0k⟩
          have hx0a : x0.key = a.key := of_decide_eq_true hx0k
          have hx0f := hall x0 hx0
          simp only [keyIs, decide_eq_false_iff_not] at hx0f ⊢
          exact fun hak => hx0f (hx0a.trans hak)
        simp [hka]
    · simp only [Extract.dedupKeepLast, if_neg hany]
      by_cases hka : a.key = k
      · have hnone : lastMatchP (keyIs k) as = none := by
          apply (lastMatchP_eq_none_iff _ _).mpr
          intro x hx
          simp only [keyIs, decide_eq_false_iff_not]
          intro hxk
          exact hany (List.any_eq_true.mpr ⟨x, hx, decide_eq_true (hxk.trans hka.symm)⟩)
        simp [List.find?, lastMatchP, hnone, keyIs, hka]
      · simp only [lastMatchP]
        have hfa : keyIs k a = false := by
          simp [keyIs, hka]
        rw [List.find?_cons_of_neg _ (by simp [hfa]), ih]
        cases hm : lastMatchP (keyIs k) as with
        | some r => rfl
        | none => simp [hfa]

theorem find?_upsert_batch (t : List Row) (l : List Row) (k : Option String) :
    (Extract.upsert_batch_data t l).find? (keyIs k) =
      match lastMatchP (keyIs k) l with
      | some r => some r
      | none => t.find? (keyIs k) := by
  induction l generalizing t with
  | nil => rfl
  | cons a l ih =>
    have hb : Extract.upsert_batch_data t (a :: l) =
        Extract.upsert_batch_data (Extract.upsertRow t a) l := rfl
    rw [hb, ih]
    simp only [lastMatchP]
    cases hm : lastMatchP (keyIs k) l with
    | some r => rfl
    | none =>
      rw [find?_upsertRow]
      by_cases hak : a.key = k <;> simp [keyIs, hak]

theorem lastMatchP_append {α : Type} (p : α → Bool) (l₁ l₂ : List α) :
    lastMatchP p (l₁ ++ l₂) =
      match lastMatchP p l₂ with
      | some r => some r
      | none => lastMatchP p l₁ := by
  induction l₁ with
  | nil =>
    simp only [List.nil_append, lastMatchP]
    cases lastMatchP p l₂ <;> rfl
  | cons a l ih =>
    rw [List.cons_append]
    simp only [lastMatchP]
    rw [ih]
    cases lastMatchP p l₂ <;> cases lastMatchP p l <;> rfl

theorem lastMatchP_filter {α : Type} (p q : α → Bool) (l : List α) :
    lastMatchP p (l.filter q) = lastMatchP (fun a => p a && q a) l := by
  induction l with
  | nil => rfl
  | cons a l ih =>
    simp only [List.filter_cons]
    by_cases hq : q a = true
    · rw [if_pos hq]
      simp only [lastMatchP, ih]
      cases lastMatchP (fun a => p a && q a) l <;> simp [hq]
    · rw [if_neg hq]
      rw [ih]
      simp only [lastMatchP]
      cases lastMatchP (fun a => p a && q a) l <;> simp [hq]

theorem lastMatchP_map {α β : Type} (p : β → Bool) (f : α → β) (l : List α) :
    lastMatchP p (l.map f) = (lastMatchP (fun a => p (f a)) l).map f := by
  induction l with
  | nil => rfl
  | cons a l ih =>
    simp only [List.map_cons, lastMatchP, ih]
    cases lastMatchP (fun a => p (f a)) l with
    | some r => rfl
    | none => by_cases hp : p (f a) = true <;> simp [hp]

theorem lastMatchP_filter_self {α : Type} (p : α → Bool) (l : List α) :
    lastMatchP p l = lastMatchP p (l.filter p) := by
  induction l with
  | nil => rfl
  | cons a l ih =>
    simp only [List.filter_cons]
    by_cases hp : p a = true
    · rw [if_pos hp]
      simp only [lastMatchP, ih]
    · rw [if_neg hp]
      simp only [lastMatchP, ih]
      cases lastMatchP p (l.filter p) <;> simp [hp]

theorem lastMatchP_dedup (k : Option String) (l : List Row) :
    lastMatchP (keyIs k) (Extract.dedupKeepLast l) = lastMatchP (keyIs k) l := by
  induction l with
  | nil => rfl
  | cons a as ih =>
    by_cases hany : as.any (fun x => decide (x.key = a.key)) = true
    · simp only [Extract.dedupKeepLast, if_pos hany, ih]
      simp only [lastMatchP]
      cases hm : lastMatchP (keyIs k) as with
      | some r => rfl
      | none =>
        have hall := (lastMatchP_eq_none_iff _ _).mp hm
        have hka : keyIs k a = false := by
          rcases List.any_eq_true.mp hany with ⟨x0, hx0, hx0k⟩
          have hx0a : x0.key = a.key := of_decide_eq_true hx0k
          have hx0f := hall x0 hx0
          simp only [keyIs, decide_eq_false_iff_not] at hx0f ⊢
          exact fun hak => hx0f (hx0a.trans hak)
        simp [hka]
    · simp only [Extract.dedupKeepLast, if_neg hany, lastMatchP, ih]

theorem normalizeCell_some {s t : String} (h : Extract.normalizeCell s = some t) :
    s = t := by
  unfold Extract.normalizeCell at h
  split at h
  · exact Option.noConfusion h
  · exact Option.some.inj h

theorem filter_orderedInsert (q : RawRow → Bool)
    (H : ∀ x y, q x = true → q y = true →
      Extract.extract_numeric_id x.key = Extract.extract_numeric_id y.key)
    (a : RawRow) (l : List RawRow) :
    (l.orderedInsert Extract.rowLe a).filter q =
      if q a then a :: l.filter q else l.filter q := by
  induction l with
  | nil => simp [List.orderedInsert, List.filter_cons]
  | cons b l ih =>
    simp only [List.orderedInsert]
    by_cases hle : Extract.rowLe a b
    · rw [if_pos hle]
      simp only [List.filter_cons]
    · rw [if_neg hle]
      simp only [List.filter_cons, ih]
      by_cases hqa : q a = true
      · by_cases hqb : q b = true
        · exact absurd (show Extract.rowLe a b from Nat.le_of_eq (H a b hqa hqb)) hle
        · simp [hqa, hqb]
      · by_cases hqb : q b = true <;> simp [hqa, hqb]

theorem filter_sortByNumericId (q : RawRow → Bool)
    (H : ∀ x y, q x = true → q y = true →
      Extract.extract_numeric_id x.key = Extract.extract_numeric_id y.key)
    (l : List RawRow) :
    (Extract.sortByNumericId l).filter q = l.filter q := by
  induction l with
  | nil => rfl
  | cons a l ih =>
    show ((List.insertionSort Extract.rowLe l).orderedInsert Extract.rowLe a).filter q = _
    rw [filter_orderedInsert q H a]
    have ih' : (List.insertionSort Extract.rowLe l).filter q = l.filter q := ih
    rw [ih']
    simp [List.filter_cons]

theorem lastMatchP_sortByNumericId (q : RawRow → Bool)
    (H : ∀ x y, q x = true → q y = true →
      Extract.extract_numeric_id x.key = Extract.extract_numeric_id y.key)
    (l : List RawRow) :
    lastMatchP q (Extract.sortByNumericId l) = lastMatchP q l := by
  rw [lastMatchP_filter_self q (Extract.sortByNumericId l),
    filter_sortByNumericId q H l, ← lastMatchP_filter_self]

theorem rawKeyPred_const (k : Option String) :
    ∀ x y, rawKeyPred k x = true → rawKeyPred k y = true →
      Extract.extract_numeric_id x.key = Extract.extract_numeric_id y.key := by
  intro x y hx hy
  simp only [rawKeyPred, Bool.and_eq_true, keyIs, decide_eq_true_eq,
    Extract.validKey, Extract.normalizeRow] at hx hy
  obtain ⟨hxk, hx2, _⟩ := hx
  obtain ⟨hyk, _, _⟩ := hy
  obtain ⟨u, hu⟩ := Option.isSome_iff_exists.mp hx2
  have hxu : x.key = u := normalizeCell_some hu
  have hyu : y.key = u := normalizeCell_some (hyk.trans (hxk.symm.trans hu))
  rw [hxu, hyu]

theorem lastMatchP_procChunk (k : Option String) (c : List RawRow) :
    lastMatchP (keyIs k) (Extract.procChunk c) =
      (lastMatchP (rawKeyPred k) c).map Extract.normalizeRow := by
  unfold Extract.procChunk Extract.process_dataframe_raw
  rw [lastMatchP_dedup, lastMatchP_filter, lastMatchP_map]
  rw [show (fun a => (fun r => keyIs k r && Extract.validKey r) (Extract.normalizeRow a)) =
    rawKeyPred k from rfl]
  rw [lastMatchP_sortByNumericId (rawKeyPred k) (rawKeyPred_const k) c]

theorem lastMatchP_join_procChunks (k : Option String) (L : List (List RawRow)) :
    lastMatchP (keyIs k) ((L.map Extract.procChunk).flatten) =
      (lastMatchP (rawKeyPred k) L.flatten).map Extract.normalizeRow := by
  induction L with
  | nil => rfl
  | cons c L ih =>
    simp only [List.map_cons, List.flatten_cons]
    rw [lastMatchP_append, lastMatchP_append, ih, lastMatchP_procChunk]
    cases lastMatchP (rawKeyPred k) L.flatten with
    | some r => rfl
    | none => cases lastMatchP (rawKeyPred k) c <;> rfl

theorem join_chunksOfAux {α : Type} (fuel : Nat) :
    ∀ (n : Nat) (l : List α), l.length ≤ fuel → 0 < n →
      (Extract.chunksOfAux fuel n l).flatten = l := by
  induction fuel with
  | zero =>
    intro n l hf _
    have hl : l = [] := List.eq_nil_of_length_eq_zero (Nat.le_zero.mp hf)
    subst hl
    rfl
  | succ fuel ih =>
    intro n l hf hn
    cases l with
    | nil => rfl
    | cons a as =>
      simp only [Extract.chunksOfAux, List.flatten_cons]
      have hlen : ((a :: as).drop n).length ≤ fuel := by
        simp only [List.length_drop, List.length_cons]
        simp only [List.length_cons] at hf
        omega
      rw [ih n ((a :: as).drop n) hlen hn]
      exact List.take_append_drop n (a :: as)

theorem join_chunksOf {α : Type} (n : Nat) (l : List α) (hn : 0 < n) :
    (Extract.chunksOf n l).flatten = l :=
  join_chunksOfAux l.length n l (le_refl _) hn

theorem chunkStep_staging (acc : Extract.ChunkAcc) (c : List RawRow) :
    (Extract.chunkStep acc c).staging =
      Extract.upsert_batch_data acc.staging (Extract.procChunk c) := by
  simp only [Extract.chunkStep]
  by_cases hp : (Extract.procChunk c).isEmpty = true
  · rw [if_pos hp]
    rw [List.isEmpty_iff.mp hp]
    rfl
  · rw [if_neg hp]

theorem foldl_chunkStep_staging (L : List (List RawRow)) (acc : Extract.ChunkAcc) :
    (L.foldl Extract.chunkStep acc).staging =
      Extract.upsert_batch_data acc.staging ((L.map Extract.procChunk).flatten) := by
  induction L generalizing acc with
  | nil => rfl
  | cons c L ih =>
    simp only [List.foldl_cons, List.map_cons, List.flatten_cons]
    rw [ih, chunkStep_staging]
    show Extract.upsert_batch_data _ _ = List.foldl _ _ _
    simp only [Extract.upsert_batch_data]
    exact (List.foldl_append _ _ _ _).symm

theorem process_small_file_staging (staging : List Row) (rows : List RawRow) :
    (Extract.process_small_file staging rows).1 =
      Extract.upsert_batch_data staging (Extract.procChunk rows) := by
  simp only [Extract.process_small_file]
  by_cases hr : rows.isEmpty = true
  · rw [if_pos hr]
    rw [List.isEmpty_iff.mp hr]
    rfl
  · rw [if_neg hr]
    by_cases hp : (Extract.procChunk rows).isEmpty = true
    · rw [if_pos hp]
      rw [List.isEmpty_iff.mp hp]
      rfl
    · rw [if_neg hp]

theorem process_large_file_staging (n : Nat) (staging : List Row)
    (rows : List RawRow) :
    (Extract.process_large_file_in_chunks n staging rows).1 =
      Extract.upsert_batch_data staging
        (((Extract.chunksOf n rows).map Extract.procChunk).flatten) := by
  simp only [Extract.process_large_file_in_chunks]
  exact foldl_chunkStep_staging _ _

theorem sortByNumericId_eq_of_perm (l₁ l₂ : List RawRow)
    (hperm : l₁.Perm l₂)
    (hnodup : (l₁.map (fun r => Extract.extract_numeric_id r.key)).Nodup) :
    Extract.sortByNumericId l₁ = Extract.sortByNumericId l₂ := by
  have p1 : (Extract.sortByNumericId l₁).Perm l₁ := List.perm_insertionSort _ _
  have p2 : (Extract.sortByNumericId l₂).Perm l₂ := List.perm_insertionSort _ _
  have hp : (Extract.sortByNumericId l₁).Perm (Extract.sortByNumericId l₂) :=
    p1.trans (hperm.trans p2.symm)
  have s1 : (Extract.sortByNumericId l₁).Sorted Extract.rowLe :=
    List.sorted_insertionSort _ _
  have s2 : (Extract.sortByNumericId l₂).Sorted Extract.rowLe :=
    List.sorted_insertionSort _ _
  have nd1 : ((Extract.sortByNumericId l₁).map
      (fun r => Extract.extract_numeric_id r.key)).Nodup :=
    ((p1.map _).symm).nodup hnodup
  have nd2 : ((Extract.sortByNumericId l₂).map
      (fun r => Extract.extract_numeric_id r.key)).Nodup :=
    ((p2.map _).symm).nodup ((hperm.map _).nodup hnodup)
  have st1 : (Extract.sortByNumericId l₁).Sorted Extract.rowLt := by
    have pw := List.pairwise_map.mp nd1
    exact (s1.and pw).imp fun hab => Nat.lt_of_le_of_ne hab.1 hab.2
  have st2 : (Extract.sortByNumericId l₂).Sorted Extract.rowLt := by
    have pw := List.pairwise_map.mp nd2
    exact (s2.and pw).imp fun hab => Nat.lt_of_le_of_ne hab.1 hab.2
  exact List.eq_of_perm_of_sorted hp st1 st2

/-! ## Claim theorems -/

/-- C1. For every source file whose content fingerprint equals the fingerprint
stored in the tracking ledger, re-running extraction performs no staging write
(the whole extractor state is returned unchanged) and returns
`(source_rows, 0, 0)`, where `source_rows` equals the file's row count. -/
theorem extract_idempotent_skip (st : Extract.ExtractState) (f : Extract.SourceFile)
    (e : Extract.TrackerEntry)
    (hfind : st.tracker.find? (fun x => decide (x.file_name = f.name)) = some e)
    (hhash : e.file_hash = f.hash) :
    Extract.load_csv_to_staging st f = (st, (f.rows.length, 0, 0)) := by
  have hp : Extract.is_file_processed st f = true := by
    unfold Extract.is_file_processed
    rw [hfind]
    simp [hhash]
  simp only [Extract.load_csv_to_staging, hp, if_true, Extract.csvRowCount]

theorem extract_idempotent_skip_witness :
    Extract.load_csv_to_staging ⟨[⟨"branches.csv", 7, 3⟩], []⟩
        ⟨"branches.csv", [⟨"B1", ["x"]⟩, ⟨"B2", ["y"]⟩, ⟨"B3", ["z"]⟩], 7, 1⟩ =
      (⟨[⟨"branches.csv", 7, 3⟩], []⟩, (3, 0, 0)) :=
  extract_idempotent_skip _ _ ⟨"branches.csv", 7, 3⟩ (by decide) rfl

/-- C3. Running the incremental loader a second time with no new transformed
rows between the runs loads 0 rows into the production store, and the verifier
then reports synchronized = true (stated per entity; the loader handles each
entity independently). -/
theorem loader_second_run_noop {α : Type} (t p : List α) (h : p.length ≤ t.length) :
    (Loader.load_entity_incremental t (Loader.load_entity_incremental t p).1).2 = 0 ∧
    (Loader.verify_counts t
        (Loader.load_entity_incremental t
          (Loader.load_entity_incremental t p).1).1).2.2 = true := by
  have hlen : (Loader.load_entity_incremental t p).1.length = t.length := by
    simp only [Loader.load_entity_incremental]
    split_ifs with hd
    · simpa using Nat.le_antisymm h (Nat.le_of_sub_eq_zero hd)
    · simp only [List.length_append, List.length_take, List.length_drop]
      omega
  set q := (Loader.load_entity_incremental t p).1 with hq
  have hdelta : t.length - q.length = 0 := by omega
  constructor
  · simp [Loader.load_entity_incremental, hdelta]
  · simp [Loader.verify_counts, Loader.load_entity_incremental, hdelta, hlen]

theorem loader_second_run_noop_witness :
    (Loader.load_entity_incremental [1, 2, 3]
        (Loader.load_entity_incremental [1, 2, 3] [1]).1).2 = 0 ∧
    (Loader.verify_counts [1, 2, 3]
        (Loader.load_entity_incremental [1, 2, 3]
          (Loader.load_entity_incremental [1, 2, 3] [1]).1).1).2.2 = true :=
  loader_second_run_noop [1, 2, 3] [1] (by decide)

/-- C2. Staging the same primary key twice with different non-key values leaves
exactly one staging row for that key, and that row holds the latest values:
across writes, upserting two rows that share a key into a staging table holding
at most one row for that key leaves exactly one row for it, namely the second
row; within one file, the keep-last dedup keeps, for every key, exactly the
last row of the file holding that key. -/
theorem staging_upsert_last_write_wins :
    (∀ (staging : List Row) (r₁ r₂ : Row),
        r₁.key = r₂.key →
        staging.countP (keyIs r₂.key) ≤ 1 →
        (Extract.upsert_batch_data staging [r₁, r₂]).countP (keyIs r₂.key) = 1 ∧
          (Extract.upsert_batch_data staging [r₁, r₂]).find? (keyIs r₂.key) = some r₂) ∧
    (∀ (l : List Row) (k : Option String),
        (Extract.dedupKeepLast l).find? (keyIs k) = lastMatchP (keyIs k) l) := by
  constructor
  · intro s r₁ r₂ hkey hcount
    have hb : Extract.upsert_batch_data s [r₁, r₂] =
        Extract.upsertRow (Extract.upsertRow s r₁) r₂ := rfl
    rw [hb]
    constructor
    · have h1 := countP_upsertRow s r₁
      rw [hkey] at h1
      have h2 := countP_upsertRow (Extract.upsertRow s r₁) r₂
      rw [h1] at h2
      rw [h2]
      split_ifs <;> omega
    · rw [find?_upsertRow]
      simp
  · exact dedup_find?_eq_lastMatchP

theorem staging_upsert_last_write_wins_witness :
    (Extract.upsert_batch_data [⟨some "B9", [some "z"]⟩]
        [⟨some "B1", [some "a"]⟩, ⟨some "B1", [some "b"]⟩]).countP (keyIs (some "B1")) = 1 ∧
      (Extract.upsert_batch_data [⟨some "B9", [some "z"]⟩]
        [⟨some "B1", [some "a"]⟩, ⟨some "B1", [some "b"]⟩]).find? (keyIs (some "B1")) =
        some ⟨some "B1", [some "b"]⟩ :=
  staging_upsert_last_write_wins.1 [⟨some "B9", [some "z"]⟩]
    ⟨some "B1", [some "a"]⟩ ⟨some "B1", [some "b"]⟩ rfl (by decide)

/-- C9 counterexample. Two files with the same two rows in swapped on-disk
order do not produce the same staging insertion order: the keys "A1" and "B1"
both have numeric sort key 1, and the sort leaves tied rows in file order. -/
theorem sort_order_tie_counterexample :
    (List.Perm [RawRow.mk "A1" ["x"], RawRow.mk "B1" ["y"]]
        [RawRow.mk "B1" ["y"], RawRow.mk "A1" ["x"]]) ∧
    Extract.procChunk [RawRow.mk "A1" ["x"], RawRow.mk "B1" ["y"]] ≠
      Extract.procChunk [RawRow.mk "B1" ["y"], RawRow.mk "A1" ["x"]] := by
  exact ⟨by decide, by decide⟩

/-- C9 amended. Two files containing the same rows in different on-disk order
produce identical staging insertion order provided the rows' numeric sort keys
(the integer formed from the digit characters of the primary key, 0 when there
is none) are pairwise distinct; when two rows tie on the numeric key, their
relative order follows the file order and can differ. -/
theorem sort_order_deterministic (l₁ l₂ : List RawRow)
    (hperm : l₁.Perm l₂)
    (hnodup : (l₁.map (fun r => Extract.extract_numeric_id r.key)).Nodup) :
    Extract.procChunk l₁ = Extract.procChunk l₂ := by
  unfold Extract.procChunk Extract.process_dataframe_raw
  rw [sortByNumericId_eq_of_perm l₁ l₂ hperm hnodup]

theorem sort_order_deterministic_witness :
    Extract.procChunk [RawRow.mk "B2" ["x"], RawRow.mk "B1" ["y"]] =
      Extract.procChunk [RawRow.mk "B1" ["y"], RawRow.mk "B2" ["x"]] :=
  sort_order_deterministic _ _ (by decide) (by decide)

/-- C4 counterexample. A file whose single row has an empty primary key returns
`(1, 0, 0)` through the in-memory path (which reports the raw CSV row count)
but `(0, 0, 0)` through the chunked path (which counts rows only after the
key filter and dedup), so the two paths do not return the same triple. -/
theorem chunked_vs_small_triple_counterexample :
    (Extract.process_small_file [] [⟨"", ["v"]⟩]).2 = (1, 0, 0) ∧
    (Extract.process_large_file_in_chunks 1000 [] [⟨"", ["v"]⟩]).2 = (0, 0, 0) ∧
    (Extract.process_small_file [] [⟨"", ["v"]⟩]).2 ≠
      (Extract.process_large_file_in_chunks 1000 [] [⟨"", ["v"]⟩]).2 := by
  exact ⟨by decide, by decide, by decide⟩

/-- C4 amended. For every CSV source file, the chunked large-file path leaves
the same final staging-table contents as the in-memory small-file path: for
every primary key, both paths leave the same staging row. The returned
`(total_rows, new_rows, updated_rows)` triples may differ — the small path
counts raw CSV rows while the chunked path counts post-filter post-dedup rows,
and a key spanning two chunks is counted once as new and again as updated. -/
theorem chunked_matches_small_staging_contents (staging : List Row)
    (rows : List RawRow) (n : Nat) (hn : 0 < n) (k : Option String) :
    (Extract.process_small_file staging rows).1.find? (keyIs k) =
      (Extract.process_large_file_in_chunks n staging rows).1.find? (keyIs k) := by
  rw [process_small_file_staging, process_large_file_staging]
  rw [find?_upsert_batch, find?_upsert_batch]
  rw [lastMatchP_join_procChunks, join_chunksOf n rows hn, lastMatchP_procChunk]

theorem chunked_matches_small_staging_contents_witness :
    (Extract.process_small_file [] [⟨"B2", ["x"]⟩, ⟨"B1", ["y"]⟩]).1.find?
        (keyIs (some "B1")) =
      (Extract.process_large_file_in_chunks 1 []
        [⟨"B2", ["x"]⟩, ⟨"B1", ["y"]⟩]).1.find? (keyIs (some "B1")) :=
  chunked_matches_small_staging_contents [] [⟨"B2", ["x"]⟩, ⟨"B1", ["y"]⟩] 1
    (by decide) (some "B1")

/-- C5. The date strings "15-03-2020", "15/03/2020" and "2020-03-15" all parse
to the same calendar date 2020-03-15, and "31/12/69" parses, under the
sliding-window rule when the current year is 2024 (two-digit year 24), to
1969-12-31. -/
theorem safe_date_formats_agree (cy : Nat) (h : cy = 2024) :
    Transform.safe_date cy "15-03-2020" = some ⟨2020, 3, 15⟩ ∧
    Transform.safe_date cy "15/03/2020" = some ⟨2020, 3, 15⟩ ∧
    Transform.safe_date cy "2020-03-15" = some ⟨2020, 3, 15⟩ ∧
    Transform.safe_date cy "31/12/69" = some ⟨1969, 12, 31⟩ := by
  subst h
  exact ⟨by decide, by decide, by decide, by decide⟩

theorem safe_date_formats_agree_witness :
    Transform.safe_date 2024 "15-03-2020" = some ⟨2020, 3, 15⟩ ∧
    Transform.safe_date 2024 "15/03/2020" = some ⟨2020, 3, 15⟩ ∧
    Transform.safe_date 2024 "2020-03-15" = some ⟨2020, 3, 15⟩ ∧
    Transform.safe_date 2024 "31/12/69" = some ⟨1969, 12, 31⟩ :=
  safe_date_formats_agree 2024 rfl

/-- C6 counterexample. With current year 2024, transform.py's date rule accepts
"15-03-1900" as 1900-03-15, a date outside the claimed window
[current_year - 120, current_year + 50] = [1904, 2074]; the rule's actual lower
bound there is 1900, not current_year - 120. -/
theorem date_window_counterexample :
    Transform.safe_date 2024 "15-03-1900" = some ⟨1900, 3, 15⟩ ∧
    (1900 : Nat) < 2024 - 120 := by
  exact ⟨by decide, by decide⟩

/-- C6 amended. load.py's date rule accepts only dates within
[current_year - 120, current_year + 50] (and returns the null marker otherwise,
never aborting); transform.py's variant instead accepts only dates within
[1900, current_year]. -/
theorem safe_date_year_window :
    (∀ (cy : Nat) (s : String) (d : Date),
        Load.safe_date cy s = some d → cy - 120 ≤ d.year ∧ d.year ≤ cy + 50) ∧
    (∀ (cy : Nat) (s : String) (d : Date),
        Transform.safe_date cy s = some d → 1900 ≤ d.year ∧ d.year ≤ cy) := by
  constructor
  · intro cy s d h
    simp only [Load.safe_date] at h
    split at h
    · exact Option.noConfusion h
    · rcases orElse_eq_some_cases h with h1 | ⟨_, h2⟩
      · exact Load.yearGate_some_window h1
      · split at h2
        · split at h2
          · exact Load.yearGate_some_window h2
          · exact Option.noConfusion h2
        · exact Option.noConfusion h2
  · intro cy s d h
    simp only [Transform.safe_date] at h
    split at h
    · exact Option.noConfusion h
    · rcases orElse_eq_some_cases h with h1 | ⟨_, h2⟩
      · split at h1
        · exact Transform.yearGate_some_range h1
        · exact Option.noConfusion h1
      · rcases orElse_eq_some_cases h2 with h3 | ⟨_, h4⟩
        · split at h3
          · split at h3
            · exact Transform.yearGate_some_range h3
            · exact Transform.yearGate_some_range h3
          · exact Option.noConfusion h3
        · exact Transform.yearGate_some_range h4

theorem safe_date_year_window_witness :
    ((2024 : Nat) - 120 ≤ 2020 ∧ 2020 ≤ 2024 + 50) ∧
    ((1900 : Nat) ≤ 2020 ∧ 2020 ≤ 2024) :=
  ⟨safe_date_year_window.1 2024 "15/03/2020" ⟨2020, 3, 15⟩ (by decide),
    safe_date_year_window.2 2024 "15/03/2020" ⟨2020, 3, 15⟩ (by decide)⟩

/-- C7 counterexample. For a 134-year-old birth date, transform.py's calc_age
returns 120 (it clips with max/min), while the claimed rule — age 0 whenever
the result falls outside [0, 120] — demands 0. -/
theorem calc_age_clamp_counterexample :
    Transform.calc_age ⟨2024, 6, 15⟩ (some ⟨1890, 1, 1⟩) = 120 ∧
    specAge ⟨2024, 6, 15⟩ (some ⟨1890, 1, 1⟩) = 0 := by
  exact ⟨by decide, by decide⟩

/-- C7 amended. load.py's calc_age computes exactly the claimed rule: whole
years between birth date and today, decremented by one if the birth month/day
has not yet occurred this year, and 0 whenever the birth date is in the future
or that result falls outside [0, 120]. transform.py's variant instead clips
results above 120 to 120. -/
theorem calc_age_matches_spec (today : Date) (dob : Option Date) :
    Load.calc_age today dob = specAge today dob := by
  cases dob with
  | none => rfl
  | some d =>
    simp only [Load.calc_age, specAge]
    by_cases hlt : Date.lt today d
    · simp [hlt]
    · simp only [hlt, false_or, if_false, Bool.false_eq_true]
      split_ifs <;> omega

theorem length_dedupKeepFirstByAux_le {α : Type} (key : α → Option String)
    (seen : List (Option String)) (l : List α) :
    (Load.dedupKeepFirstByAux key seen l).length ≤ l.length := by
  induction l generalizing seen with
  | nil => exact Nat.le_refl 0
  | cons a as ih =>
    simp only [Load.dedupKeepFirstByAux]
    split_ifs
    · exact Nat.le_trans (ih seen) (Nat.le_succ _)
    · simp only [List.length_cons]
      exact Nat.succ_le_succ (ih _)

theorem length_dedupKeepFirstByAux_lt {α : Type} (key : α → Option String) (r : α) :
    ∀ (l : List α) (seen : List (Option String)),
      r ∈ l → r ∉ Load.dedupKeepFirstByAux key seen l →
      (Load.dedupKeepFirstByAux key seen l).length < l.length := by
  intro l
  induction l with
  | nil =>
    intro seen hr _
    cases hr
  | cons a as ih =>
    intro seen hr hout
    simp only [Load.dedupKeepFirstByAux] at hout ⊢
    split_ifs at hout ⊢ with hk
    · exact Nat.lt_succ_of_le (length_dedupKeepFirstByAux_le key seen as)
    · have hra : r ≠ a := fun he => hout (he ▸ List.mem_cons_self a _)
      have hras : r ∈ as := (List.mem_cons.mp hr).resolve_left hra
      have hout' : r ∉ Load.dedupKeepFirstByAux key (key a :: seen) as :=
        fun hc => hout (List.mem_cons_of_mem a hc)
      simp only [List.length_cons]
      exact Nat.succ_lt_succ (ih (key a :: seen) hras hout')

theorem length_filter_lt_of_mem_false {α : Type} (q : α → Bool) (l : List α) (x : α)
    (hx : x ∈ l) (hq : q x = false) : (l.filter q).length < l.length := by
  induction l with
  | nil => cases hx
  | cons a as ih =>
    simp only [List.filter_cons]
    rcases List.mem_cons.mp hx with rfl | hxs
    · rw [if_neg (by simp [hq])]
      exact Nat.lt_succ_of_le (List.length_filter_le q as)
    · by_cases hqa : q a = true
      · rw [if_pos hqa]
        exact Nat.succ_lt_succ (ih hxs)
      · rw [if_neg hqa]
        exact Nat.lt_succ_of_lt (ih hxs)

/-- C8. Referential filter for both child entities of load.py. Never written:
every row that transform_loans or transform_transactions writes has its
cleaned customer_id foreign key among the customer ids present in the
transformed customers table, so a child row whose foreign key is absent from
that set is never written. Dropped and counted: a child row whose cleaned
foreign key is absent from that set makes the recorded transformed count
strictly smaller than the recorded processed count, so the dropped row is
accounted for in the stats the transform reports. -/
theorem children_referential_filter :
    (∀ (valid : List String) (rows : List Load.StgLoan) (w : Load.LoanOut),
        w ∈ (Load.transform_loans valid rows).1 → w.customer_id ∈ valid) ∧
    (∀ (cy : Nat) (valid : List String) (rows : List Load.StgTxn) (w : Load.TxnOut),
        w ∈ (Load.transform_transactions cy valid rows).1 → w.customer_id ∈ valid) ∧
    (∀ (valid : List String) (rows : List Load.StgLoan) (r : Load.StgLoan),
        r ∈ rows → Load.safe_val r.customer_id "NA" ∉ valid →
          (Load.transform_loans valid rows).2.2 <
            (Load.transform_loans valid rows).2.1) ∧
    (∀ (cy : Nat) (valid : List String) (rows : List Load.StgTxn) (r : Load.StgTxn),
        r ∈ rows → Load.safe_val r.customer_id "NA" ∉ valid →
          (Load.transform_transactions cy valid rows).2.2 <
            (Load.transform_transactions cy valid rows).2.1) := by
  refine ⟨?_, ?_, ?_, ?_⟩
  · intro valid rows w hw
    simp only [Load.transform_loans] at hw
    exact of_decide_eq_true (List.mem_filter.mp (List.mem_filter.mp hw).1).2
  · intro cy valid rows w hw
    simp only [Load.transform_transactions] at hw
    exact of_decide_eq_true
      (List.mem_filter.mp (List.mem_filter.mp (List.mem_filter.mp hw).1).1).2
  · intro valid rows r hr hbad
    simp only [Load.transform_loans]
    have hfail : (fun w : Load.LoanOut => decide (w.customer_id ∈ valid))
        (Load.cleanLoan r) = false := decide_eq_false hbad
    by_cases hrD : r ∈ Load.dedupKeepFirstByAux (fun x => x.loan_id) [] rows
    · refine Nat.lt_of_le_of_lt (List.length_filter_le _ _) ?_
      refine Nat.lt_of_lt_of_le
        (length_filter_lt_of_mem_false _ _ _ (List.mem_map_of_mem _ hrD) hfail) ?_
      rw [List.length_map]
      exact length_dedupKeepFirstByAux_le _ _ _
    · refine Nat.lt_of_le_of_lt (List.length_filter_le _ _) ?_
      refine Nat.lt_of_le_of_lt (List.length_filter_le _ _) ?_
      rw [List.length_map]
      exact length_dedupKeepFirstByAux_lt _ r rows [] hr hrD
  · intro cy valid rows r hr hbad
    simp only [Load.transform_transactions]
    have hfail : (fun w : Load.TxnOut => decide (w.customer_id ∈ valid))
        (Load.cleanTxn cy r) = false := decide_eq_false hbad
    by_cases hrD : r ∈ Load.dedupKeepFirstByAux (fun x => x.transaction_id) [] rows
    · refine Nat.lt_of_le_of_lt (List.length_filter_le _ _) ?_
      refine Nat.lt_of_le_of_lt (List.length_filter_le _ _) ?_
      refine Nat.lt_of_lt_of_le
        (length_filter_lt_of_mem_false _ _ _ (List.mem_map_of_mem _ hrD) hfail) ?_
      rw [List.length_map]
      exact length_dedupKeepFirstByAux_le _ _ _
    · refine Nat.lt_of_le_of_lt (List.length_filter_le _ _) ?_
      refine Nat.lt_of_le_of_lt (List.length_filter_le _ _) ?_
      refine Nat.lt_of_le_of_lt (List.length_filter_le _ _) ?_
      rw [List.length_map]
      exact length_dedupKeepFirstByAux_lt _ r rows [] hr hrD

theorem children_referential_filter_witness :
    ((Load.cleanLoan ⟨some "L1", some "A", some "5000", []⟩).customer_id ∈ ["A", "B"]) ∧
    ((Load.cleanTxn 2024
        ⟨some "T1", some "A", some "200", some "2020-03-15", []⟩).customer_id ∈ ["A", "B"]) ∧
    ((Load.transform_loans ["A", "B"]
        [⟨some "L1", some "A", some "5000", []⟩,
          ⟨some "L2", some "C", some "700", []⟩]).2.2 <
      (Load.transform_loans ["A", "B"]
        [⟨some "L1", some "A", some "5000", []⟩,
          ⟨some "L2", some "C", some "700", []⟩]).2.1) ∧
    ((Load.transform_transactions 2024 ["A", "B"]
        [⟨some "T1", some "A", some "200", some "2020-03-15", []⟩,
          ⟨some "T2", some "C", some "300", some "2020-03-15", []⟩]).2.2 <
      (Load.transform_transactions 2024 ["A", "B"]
        [⟨some "T1", some "A", some "200", some "2020-03-15", []⟩,
          ⟨some "T2", some "C", some "300", some "2020-03-15", []⟩]).2.1) :=
  ⟨children_referential_filter.1 ["A", "B"]
      [⟨some "L1", some "A", some "5000", []⟩, ⟨some "L2", some "C", some "700", []⟩]
      (Load.cleanLoan ⟨some "L1", some "A", some "5000", []⟩) (by decide),
    children_referential_filter.2.1 2024 ["A", "B"]
      [⟨some "T1", some "A", some "200", some "2020-03-15", []⟩,
        ⟨some "T2", some "C", some "300", some "2020-03-15", []⟩]
      (Load.cleanTxn 2024 ⟨some "T1", some "A", some "200", some "2020-03-15", []⟩)
      (by decide),
    children_referential_filter.2.2.1 ["A", "B"]
      [⟨some "L1", some "A", some "5000", []⟩, ⟨some "L2", some "C", some "700", []⟩]
      ⟨some "L2", some "C", some "700", []⟩ (by decide) (by decide),
    children_referential_filter.2.2.2 2024 ["A", "B"]
      [⟨some "T1", some "A", some "200", some "2020-03-15", []⟩,
        ⟨some "T2", some "C", some "300", some "2020-03-15", []⟩]
      ⟨some "T2", some "C", some "300", some "2020-03-15", []⟩ (by decide) (by decide)⟩

/-- C10 counterexample. The value "null" — which the claim's case-insensitive
token list maps to the null marker — is stored verbatim by
_process_dataframe_raw: its replacement list is exact and case-sensitive and
does not contain "null". -/
theorem staging_null_marker_counterexample :
    Extract.process_dataframe_raw [⟨"K1", ["null"]⟩] = [⟨some "K1", [some "null"]⟩] ∧
    claimNullToken "null" = true := by
  exact ⟨by decide, by decide⟩

theorem normalizeCell_eq_spec (s : String) :
    Extract.normalizeCell s = specNormalizeCell s := by
  simp only [Extract.normalizeCell, specNormalizeCell, Extract.rawNullStrings,
    List.mem_cons, List.not_mem_nil, or_false]

/-- C10 amended. At staging, a value exactly equal (case-sensitively) to "nan",
"None", "NaT", "<NA>" or the empty string is stored as the null marker, and
every other value is stored unchanged — no other type casting is applied. -/
theorem staging_null_normalization (rows : List RawRow) :
    Extract.process_dataframe_raw rows =
      (Extract.sortByNumericId rows).map
        (fun r => ⟨specNormalizeCell r.key, r.vals.map specNormalizeCell⟩) := by
  simp [Extract.process_dataframe_raw, Extract.normalizeRow, normalizeCell_eq_spec]

end ETL
